import Mathlib

/-!
Verification of the resilient data-access layer of the aso-mcp repository.

The definitions below are shallow embeddings of the TypeScript source:
* `src/utils/rate-limiter.ts` — token-bucket rate limiter with retry/backoff
  (`isRetryable`, `withRateLimit`);
* the scoring resolver (`getScores` with provider-health cooldown);
* `src/cache/sqlite-cache.ts` — TTL / capacity bounded SQLite cache
  (`getFromCache`, `setCache`, `deleteCache`, `enforceSizeLimit`);
* `src/data-sources/custom-scoring.ts` (`calculateCompetitiveScore`);
* `src/data-sources/app-store-connect.ts` (`getAppInfoId`, `updateMetadata`).

Machine floats are modelled as `ℚ` where the source only performs field
arithmetic, and as `ℝ` where `Math.log10` is involved.  Timestamps are `ℤ`
(milliseconds for the limiter and the scoring cooldown, seconds for the
cache, matching the units each source file uses).  Fallible code returns
`Except`.  External collaborators (the network, the scoring provider, the
catalog search) are parameters: a function from the attempt index to the
outcome that attempt would observe.
-/

namespace AsoMcp

/-! ### Rate limiter: error classification (src/utils/rate-limiter.ts) -/

/-- A thrown JavaScript error as inspected by `isRetryable`: the optional
`status`, `statusCode`, `code` and `message` properties. -/
structure JsError where
  status : Option Nat := none
  statusCode : Option Nat := none
  code : Option String := none
  message : Option String := none
deriving DecidableEq

/-- `const RETRY_ERRORS = new Set(["ECONNRESET", "ETIMEDOUT", "ENOTFOUND", "EAI_AGAIN"])`. -/
def RETRY_ERRORS : List String := ["ECONNRESET", "ETIMEDOUT", "ENOTFOUND", "EAI_AGAIN"]

/-- `const MAX_RETRIES = 3`. -/
def MAX_RETRIES : Nat := 3

/-- `const BASE_DELAY_MS = 1000`. -/
def BASE_DELAY_MS : Nat := 1000

/-- Whether `pat` is a leading segment of `s` (character lists). -/
def leadsList : List Char → List Char → Bool
  | [], _ => true
  | _ :: _, [] => false
  | p :: ps, c :: cs => p == c && leadsList ps cs

/-- Whether `pat` occurs somewhere inside `s` (JS `String.prototype.includes`). -/
def hasSubList (pat : List Char) : List Char → Bool
  | [] => leadsList pat []
  | c :: cs => leadsList pat (c :: cs) || hasSubList pat cs

/-- JS `str.includes(pat)` on strings. -/
def strIncludes (s pat : String) : Bool := hasSubList pat.toList s.toList

/-- `error?.message?.includes(pat)` — `false` when `message` is absent. -/
def msgIncludes (e : JsError) (pat : String) : Bool :=
  match e.message with
  | some m => strIncludes m pat
  | none => false

/-- `isRetryable` from src/utils/rate-limiter.ts lines 17–25, clause by clause. -/
def isRetryable (e : JsError) : Bool :=
  if e.status == some 429 || e.statusCode == some 429 then true
  else if (match e.code with | some c => RETRY_ERRORS.contains c | none => false) then true
  else if msgIncludes e "503" then true
  else if msgIncludes e "429" then true
  else if msgIncludes e "ECONNRESET" then true
  else if msgIncludes e "ETIMEDOUT" then true
  else false

/-- Modelled from the spec and claim wording, for comparison with the code's
`isRetryable`: "classify as retryable if the error indicates HTTP 429,
HTTP 503, or a transient network condition (connection reset, timeout,
DNS failure)".  An HTTP status is indicated by the error's `status` or
`statusCode` property; the transient network conditions are the Node error
codes for connection reset, timeout and DNS failure. -/
def specRetryable (e : JsError) : Bool :=
  e.status == some 429 || e.statusCode == some 429 ||
  e.status == some 503 || e.statusCode == some 503 ||
  (match e.code with | some c => RETRY_ERRORS.contains c | none => false)

/-! ### Rate limiter: the retry loop (src/utils/rate-limiter.ts lines 59–75)

`outcomes k` is the result the wrapped operation would produce on its
`k`-th invocation (0-based).  The loop returns the final result, the number
of attempts actually made, and the list of backoff delays slept (ms). -/

/-- One unrolling step of `for (let attempt = 0; attempt <= MAX_RETRIES; attempt++)`:
`attempt` is the current index, `remaining` is `MAX_RETRIES - attempt`. -/
def retryLoop (outcomes : Nat → Except JsError α) :
    Nat → Nat → Except JsError α × Nat × List Nat
  | attempt, remaining =>
    match outcomes attempt, remaining with
    | .ok v, _ => (.ok v, 1, [])
    | .error e, r + 1 =>
      if isRetryable e then
        let rest := retryLoop outcomes (attempt + 1) r
        (rest.1, rest.2.1 + 1, BASE_DELAY_MS * 2 ^ attempt :: rest.2.2)
      else (.error e, 1, [])
    | .error e, 0 => (.error e, 1, [])

/-- The execute-with-retry phase of `withRateLimit`. -/
def withRetry (outcomes : Nat → Except JsError α) : Except JsError α × Nat × List Nat :=
  retryLoop outcomes 0 MAX_RETRIES

/-! ### Rate limiter: the token bucket (src/utils/rate-limiter.ts lines 27–57) -/

/-- `interface RateLimitConfig`. -/
structure RateLimitConfig where
  maxRequests : ℚ
  windowMs : ℚ
deriving DecidableEq

/-- `interface RateLimitBucket`. -/
structure RateLimitBucket where
  tokens : ℚ
  lastRefill : ℤ
deriving DecidableEq

/-- The refill computation:
`bucket.tokens = Math.min(config.maxRequests, bucket.tokens + (elapsed / config.windowMs) * config.maxRequests)`. -/
def refillBucket (cfg : RateLimitConfig) (b : RateLimitBucket) (now : ℤ) : ℚ :=
  min cfg.maxRequests (b.tokens + ((now - b.lastRefill : ℤ) : ℚ) / cfg.windowMs * cfg.maxRequests)

/-- The token-accounting phase of one `withRateLimit` call at time `now`:
bucket lookup (`none` = fresh source, bucket created full), refill, the
conditional wait `(1 - tokens) / maxRequests * windowMs`, and the decrement.
Returns the wait in milliseconds (0 when no wait happened) and the new
bucket. -/
def rateLimitStep (cfg : RateLimitConfig) (b : Option RateLimitBucket) (now : ℤ) :
    ℚ × RateLimitBucket :=
  let b0 := b.getD ⟨cfg.maxRequests, now⟩
  let t1 := refillBucket cfg b0 now
  if t1 < 1 then
    ((1 - t1) / cfg.maxRequests * cfg.windowMs, ⟨0, now⟩)
  else
    (0, ⟨t1 - 1, now⟩)

/-- `withRateLimit(source, config, fn)`: token accounting followed by the
retry loop around `fn`. -/
def withRateLimit (cfg : RateLimitConfig) (b : Option RateLimitBucket) (now : ℤ)
    (outcomes : Nat → Except JsError α) :
    (ℚ × RateLimitBucket) × (Except JsError α × Nat × List Nat) :=
  (rateLimitStep cfg b now, withRetry outcomes)

/-- `n` back-to-back `withRateLimit` calls against one source, all at the
same instant `now` (zero elapsed time): the list of waits incurred and the
final bucket. -/
def simulateCalls (cfg : RateLimitConfig) (now : ℤ) :
    Nat → Option RateLimitBucket → List ℚ × Option RateLimitBucket
  | 0, b => ([], b)
  | n + 1, b =>
    let s := rateLimitStep cfg b now
    let rest := simulateCalls cfg now n (some s.2)
    (s.1 :: rest.1, rest.2)

/-! ### Scoring resolver (src/unnamed/part_005: `getScores`)

The network collaborators are parameters: `provider k` is the outcome the
primary scoring provider would produce on its `k`-th invocation within this
`getScores` call (module loading, client construction and `client.scores`
collapsed into one `Except`, since one `try` guards all three), and
`fallback k` the outcome `fallbackScores` would produce on its `k`-th
invocation.  The token-bucket wait of `withRateLimit` does not alter the
control flow and is modelled separately by `rateLimitStep`. -/

/-- `const ASO_RETRY_INTERVAL_MS = 10 * 60 * 1000` (10 minutes). -/
def ASO_RETRY_INTERVAL_MS : ℤ := 10 * 60 * 1000

/-- The module-level provider-health state: `asoAvailable`, `asoFailedAt`. -/
structure AsoState where
  asoAvailable : Bool
  asoFailedAt : ℤ
deriving DecidableEq

/-- The `{traffic, difficulty}` shape `getScores` resolves to. -/
structure Scores where
  traffic : ℚ
  difficulty : ℚ
deriving DecidableEq

/-- The raw provider result: either field may be absent
(`result.traffic ?? 0`). -/
structure RawScores where
  traffic : Option ℚ := none
  difficulty : Option ℚ := none
deriving DecidableEq

/-- One invocation of the operation `getScores` passes to `withRateLimit`:
try the provider; on success shape the result with `?? 0` defaults; on any
exception record the failure (`asoAvailable = false`, `asoFailedAt = now`)
and return the fallback estimate for this call. -/
def scoresAttempt (now : ℤ) (provider : Nat → Except JsError RawScores)
    (fallback : Nat → Except JsError Scores) (st : AsoState) (k : Nat) :
    Except JsError Scores × AsoState :=
  match provider k with
  | .ok r => (.ok ⟨r.traffic.getD 0, r.difficulty.getD 0⟩, st)
  | .error _ => (fallback k, ⟨false, now⟩)

/-- The retry loop of `withRateLimit`, threading the module-level state the
wrapped operation mutates.  Returns the result, the final state, and the
number of attempts. -/
def retryLoopSt (step : AsoState → Nat → Except JsError α × AsoState) :
    AsoState → Nat → Nat → Except JsError α × AsoState × Nat
  | st, attempt, 0 =>
    match step st attempt with
    | (.ok v, st') => (.ok v, st', 1)
    | (.error e, st') => (.error e, st', 1)
  | st, attempt, r + 1 =>
    match step st attempt with
    | (.ok v, st') => (.ok v, st', 1)
    | (.error e, st') =>
      if isRetryable e then
        let rest := retryLoopSt step st' (attempt + 1) r
        (rest.1, rest.2.1, rest.2.2 + 1)
      else (.error e, st', 1)

/-- A successful attempt ends the loop at once, whatever retry budget is
left. -/
theorem retryLoopSt_ok (step : AsoState → Nat → Except JsError α × AsoState)
    (st : AsoState) (attempt remaining : Nat) (v : α) (st' : AsoState)
    (h : step st attempt = (.ok v, st')) :
    retryLoopSt step st attempt remaining = (.ok v, st', 1) := by
  cases remaining <;> simp [retryLoopSt, h]

/-- `getScores(keyword, country)`: if the provider previously failed and the
cooldown has not elapsed, compute the fallback directly (the primary
provider path is not entered); otherwise mark the provider available again
and run the attempt through `withRateLimit`'s retry loop.  The `Bool`
component records whether the primary provider path was entered. -/
def getScores (st : AsoState) (now : ℤ) (provider : Nat → Except JsError RawScores)
    (fallback : Nat → Except JsError Scores) :
    Except JsError Scores × AsoState × Bool :=
  if st.asoAvailable = false ∧ now - st.asoFailedAt < ASO_RETRY_INTERVAL_MS then
    (fallback 0, st, false)
  else
    let r := retryLoopSt (scoresAttempt now provider fallback) ⟨true, st.asoFailedAt⟩ 0 MAX_RETRIES
    (r.1, r.2.1, true)

/-! ### Theorems about the retry policy (claim C1) -/

/-- The concrete HTTP 503 error used to separate the spec's classification
from the code's: its status property says 503 but its message does not
mention "503". -/
def err503 : JsError := { statusCode := some 503, message := some "Service Unavailable" }

/-- C1 (counterexample): an error carrying HTTP status 503 in its
`statusCode` property — hence "classified as retryable" by the claim's own
description (`specRetryable`) — is not retryable for the code's
`isRetryable` (which detects 503 only as a substring of `message`), so the
operation is attempted exactly once, with no backoff delays: the failure
propagates immediately instead of being retried up to 3 additional times. -/
theorem C1_counterexample :
    specRetryable err503 = true ∧ isRetryable err503 = false ∧
    withRetry (fun _ => (.error err503 : Except JsError Nat)) =
      (.error err503, 1, ([] : List Nat)) :=
  ⟨by decide, by decide, rfl⟩

/-- C1 (amended): with retryability as the code's `isRetryable` classifier
(429 via the status properties or the message, 503 and the transient
network conditions via the message substrings and the Node error codes):
a non-retryable first failure propagates immediately after one attempt; an
error that stays retryable exhausts the 3 additional retries with backoff
delays 1s, 2s, 4s and the last error propagates; and an operation that
fails twice with a "503" message then succeeds returns the success result,
was attempted exactly 3 times (with delays 1s, 2s), and the caller sees
only the final success. -/
theorem C1_retry_policy :
    (∀ (α : Type) (outcomes : Nat → Except JsError α) (e : JsError),
        outcomes 0 = .error e → isRetryable e = false →
        withRetry outcomes = (.error e, 1, [])) ∧
    (∀ (α : Type) (e : JsError), isRetryable e = true →
        withRetry (fun _ => (.error e : Except JsError α)) =
          (.error e, 4, [1000, 2000, 4000])) ∧
    (∀ (α : Type) (outcomes : Nat → Except JsError α) (e : JsError) (v : α),
        outcomes 0 = .error e → outcomes 1 = .error e → outcomes 2 = .ok v →
        msgIncludes e "503" = true →
        withRetry outcomes = (.ok v, 3, [1000, 2000])) := by
  refine ⟨?_, ?_, ?_⟩
  · intro α outcomes e h0 hr
    simp [withRetry, retryLoop, MAX_RETRIES, h0, hr]
  · intro α e hr
    simp [withRetry, retryLoop, MAX_RETRIES, hr, BASE_DELAY_MS]
  · intro α outcomes e v h0 h1 h2 hm
    have hr : isRetryable e = true := by
      unfold isRetryable
      rw [hm]
      split
      · rfl
      · split
        · rfl
        · simp
    simp [withRetry, retryLoop, MAX_RETRIES, h0, h1, h2, hr, BASE_DELAY_MS]

/-- C1 witness: the amended retry policy applied at concrete inputs. -/
theorem C1_retry_policy_witness :
    withRetry (fun _ => (.error ⟨none, none, none, some "boom"⟩ : Except JsError Nat)) =
      (.error ⟨none, none, none, some "boom"⟩, 1, []) ∧
    withRetry (fun _ => (.error ⟨none, none, some "ETIMEDOUT", none⟩ : Except JsError Nat)) =
      (.error ⟨none, none, some "ETIMEDOUT", none⟩, 4, [1000, 2000, 4000]) ∧
    withRetry (fun k => if k < 2 then (.error ⟨none, none, none, some "503"⟩ : Except JsError Nat)
        else .ok 7) = (.ok 7, 3, [1000, 2000]) :=
  ⟨C1_retry_policy.1 Nat _ _ rfl (by decide),
   C1_retry_policy.2.1 Nat _ (by decide),
   C1_retry_policy.2.2 Nat _ _ 7 rfl rfl rfl (by decide)⟩

/-! ### Theorems about the token bucket (claim C6) -/

/-- Draining a full bucket: starting from `tokens = t` at time `now`, `j`
calls with zero elapsed time each wait 0 and each consume one token. -/
theorem simulateCalls_drain (cfg : RateLimitConfig) (now : ℤ) :
    ∀ (j : Nat) (t : ℚ), (j : ℚ) ≤ t → t ≤ cfg.maxRequests →
      simulateCalls cfg now j (some ⟨t, now⟩) =
        (List.replicate j 0, some ⟨t - j, now⟩) := by
  intro j
  induction j with
  | zero => intro t _ _; simp [simulateCalls]
  | succ n ih =>
    intro t hj hmax
    have hj' : ((n : ℚ) + 1) ≤ t := by push_cast at hj ⊢; linarith
    have hrefill : refillBucket cfg ⟨t, now⟩ now = t := by
      simp [refillBucket]
      exact hmax
    have hstep : rateLimitStep cfg (some ⟨t, now⟩) now = (0, ⟨t - 1, now⟩) := by
      simp [rateLimitStep, hrefill]
      intro hlt
      exfalso
      have : (1 : ℚ) ≤ t := le_trans (by push_cast; linarith) hj
      linarith
    have ihused := ih (t - 1) (by linarith) (by linarith)
    simp [simulateCalls, hstep, ihused, List.replicate_succ]
    ring

/-- C6: with a fresh bucket for a source configured with `maxRequests = m ≥ 1`
and a positive window, `m` calls with zero elapsed time between them all
complete without any wait, and the `(m+1)`-th call incurs the wait
`(1 - tokens) / maxRequests * windowMs` with `tokens = 0`, which is nonzero;
moreover the refill phase always caps the bucket at `maxRequests` tokens. -/
theorem C6_rate_limiter :
    ∀ (m : Nat) (cfg : RateLimitConfig) (now : ℤ),
      cfg.maxRequests = (m : ℚ) → 1 ≤ m → 0 < cfg.windowMs →
      (simulateCalls cfg now m none).1 = List.replicate m 0 ∧
      (rateLimitStep cfg (simulateCalls cfg now m none).2 now).1
        = (1 - 0) / cfg.maxRequests * cfg.windowMs ∧
      0 < (rateLimitStep cfg (simulateCalls cfg now m none).2 now).1 ∧
      (∀ (b : RateLimitBucket) (t : ℤ), refillBucket cfg b t ≤ cfg.maxRequests) := by
  intro m cfg now hm h1 hw
  obtain ⟨n, rfl⟩ : ∃ n, m = n + 1 := ⟨m - 1, by omega⟩
  have hfirst : rateLimitStep cfg none now = (0, ⟨cfg.maxRequests - 1, now⟩) := by
    have hrefill : refillBucket cfg ⟨cfg.maxRequests, now⟩ now = cfg.maxRequests := by
      simp [refillBucket]
    have hge : (1 : ℚ) ≤ cfg.maxRequests := by
      rw [hm]; push_cast; exact_mod_cast by exact_mod_cast Nat.one_le_cast.mpr h1
    simp [rateLimitStep, hrefill]
    intro hlt; exfalso; linarith
  have hdrain := simulateCalls_drain cfg now n (cfg.maxRequests - 1)
    (by rw [hm]; push_cast; linarith) (by
      have hge : (0 : ℚ) ≤ cfg.maxRequests := by rw [hm]; positivity
      linarith)
  have hsim : simulateCalls cfg now (n + 1) none =
      (List.replicate (n + 1) 0, some ⟨0, now⟩) := by
    have hzero : cfg.maxRequests - 1 - (n : ℚ) = 0 := by
      rw [hm]; push_cast; ring
    simp [simulateCalls, hfirst, hdrain, hzero, List.replicate_succ]
  have hlast : refillBucket cfg ⟨0, now⟩ now = 0 := by
    have hge : (0 : ℚ) ≤ cfg.maxRequests := by rw [hm]; positivity
    simp [refillBucket]
    exact hge
  refine ⟨by rw [hsim], ?_, ?_, ?_⟩
  · rw [hsim]
    simp [rateLimitStep, hlast]
  · rw [hsim]
    simp [rateLimitStep, hlast]
    have hmq : (0 : ℚ) < cfg.maxRequests := by
      rw [hm]; exact_mod_cast Nat.pos_of_ne_zero (by omega)
    positivity
  · intro b t
    exact min_le_left _ _

/-- C6 witness: the token-bucket behavior at `maxRequests = 2`,
`windowMs = 1000`. -/
theorem C6_rate_limiter_witness :
    (simulateCalls ⟨2, 1000⟩ 0 2 none).1 = List.replicate 2 0 ∧
    (rateLimitStep ⟨2, 1000⟩ (simulateCalls ⟨2, 1000⟩ 0 2 none).2 0).1
      = (1 - 0) / (2 : ℚ) * 1000 ∧
    0 < (rateLimitStep ⟨2, 1000⟩ (simulateCalls ⟨2, 1000⟩ 0 2 none).2 0).1 := by
  have h := C6_rate_limiter 2 ⟨2, 1000⟩ 0 (by norm_num) (by norm_num) (by norm_num)
  exact ⟨h.1, h.2.1, h.2.2.1⟩

/-! ### Theorems about the scoring fallback (claims C2, C10) -/

/-- C2: if the primary provider throws on a call made while the provider
path is live (available, or the 10-minute cooldown has elapsed), `getScores`
still returns a `{traffic, difficulty}`-shaped value without throwing —
namely the local fallback estimate — and the health state transitions to
unavailable with the failure timestamp recorded; every call made while less
than 10 minutes have elapsed since the recorded failure does not attempt
the primary provider at all (it computes the local estimate directly and
leaves the state unchanged, so the same applies to all later calls inside
the window); once 10 minutes or more have elapsed, the next call enters the
primary-provider path again. -/
theorem C2_provider_fallback_cooldown :
    (∀ (st : AsoState) (now : ℤ) (provider : Nat → Except JsError RawScores)
        (fallback : Nat → Except JsError Scores) (e : JsError) (v : Scores),
        (st.asoAvailable = false → ASO_RETRY_INTERVAL_MS ≤ now - st.asoFailedAt) →
        provider 0 = .error e → fallback 0 = .ok v →
        getScores st now provider fallback = (.ok v, ⟨false, now⟩, true)) ∧
    (∀ (t now : ℤ) (provider : Nat → Except JsError RawScores)
        (fallback : Nat → Except JsError Scores),
        now - t < ASO_RETRY_INTERVAL_MS →
        getScores ⟨false, t⟩ now provider fallback = (fallback 0, ⟨false, t⟩, false)) ∧
    (∀ (t now : ℤ) (provider : Nat → Except JsError RawScores)
        (fallback : Nat → Except JsError Scores),
        ASO_RETRY_INTERVAL_MS ≤ now - t →
        (getScores ⟨false, t⟩ now provider fallback).2.2 = true) := by
  refine ⟨?_, ?_, ?_⟩
  · intro st now provider fallback e v hcool h0 hfb
    have hguard : ¬(st.asoAvailable = false ∧ now - st.asoFailedAt < ASO_RETRY_INTERVAL_MS) := by
      rintro ⟨ha, hlt⟩
      exact absurd (hcool ha) (not_le.mpr hlt)
    have hstep : scoresAttempt now provider fallback ⟨true, st.asoFailedAt⟩ 0
        = (.ok v, ⟨false, now⟩) := by
      simp [scoresAttempt, h0, hfb]
    simp only [getScores, if_neg hguard]
    rw [retryLoopSt_ok _ _ _ _ _ _ hstep]
  · intro t now provider fallback hlt
    simp [getScores, hlt]
  · intro t now provider fallback hge
    have hnot : ¬(now - t < ASO_RETRY_INTERVAL_MS) := not_lt.mpr hge
    simp [getScores, hnot]

/-- C2 witness: the fallback behavior at concrete values — failure at time
100, a cooldown-internal call at 100 + 599999, a re-probe at 100 + 600000. -/
theorem C2_provider_fallback_cooldown_witness :
    getScores ⟨true, 0⟩ 100 (fun _ => .error ⟨none, none, none, some "503"⟩)
        (fun _ => .ok ⟨1, 1⟩) = (.ok ⟨1, 1⟩, ⟨false, 100⟩, true) ∧
    getScores ⟨false, 100⟩ 600099 (fun _ => .error ⟨none, none, none, some "503"⟩)
        (fun _ => .ok ⟨1, 1⟩) = (.ok ⟨1, 1⟩, ⟨false, 100⟩, false) ∧
    (getScores ⟨false, 100⟩ 600100 (fun _ => .error ⟨none, none, none, some "503"⟩)
        (fun _ => .ok ⟨1, 1⟩)).2.2 = true := by
  refine ⟨?_, ?_, ?_⟩
  · exact C2_provider_fallback_cooldown.1 ⟨true, 0⟩ 100 _ _ _ ⟨1, 1⟩
      (by intro h; cases h) rfl rfl
  · exact C2_provider_fallback_cooldown.2.1 100 600099 _ _ (by decide)
  · exact C2_provider_fallback_cooldown.2.2 100 600100 _ _ (by decide)

/-- In the retry loop around `scoresAttempt`, any error that comes out is an
error some fallback invocation produced. -/
theorem retryLoopSt_error_from_fallback (now : ℤ)
    (provider : Nat → Except JsError RawScores)
    (fallback : Nat → Except JsError Scores) :
    ∀ (remaining attempt : Nat) (st : AsoState) (e : JsError),
      (retryLoopSt (scoresAttempt now provider fallback) st attempt remaining).1 = .error e →
      ∃ k, fallback k = .error e := by
  intro remaining
  induction remaining with
  | zero =>
    intro attempt st e h
    cases hp : provider attempt with
    | ok r => simp [retryLoopSt, scoresAttempt, hp] at h
    | error pe =>
      cases hf : fallback attempt with
      | ok v => simp [retryLoopSt, scoresAttempt, hp, hf] at h
      | error fe =>
        simp [retryLoopSt, scoresAttempt, hp, hf] at h
        exact ⟨attempt, by rw [hf, h]⟩
  | succ r ih =>
    intro attempt st e h
    cases hp : provider attempt with
    | ok rr => simp [retryLoopSt, scoresAttempt, hp] at h
    | error pe =>
      cases hf : fallback attempt with
      | ok v => simp [retryLoopSt, scoresAttempt, hp, hf] at h
      | error fe =>
        have hstep : scoresAttempt now provider fallback st attempt
            = (.error fe, ⟨false, now⟩) := by
          simp [scoresAttempt, hp, hf]
        rw [show retryLoopSt (scoresAttempt now provider fallback) st attempt (r + 1)
            = if isRetryable fe then
                (fun rest => (rest.1, rest.2.1, rest.2.2 + 1))
                  (retryLoopSt (scoresAttempt now provider fallback) ⟨false, now⟩ (attempt + 1) r)
              else (.error fe, ⟨false, now⟩, 1) by
          simp [retryLoopSt, hstep]] at h
        by_cases hr : isRetryable fe = true
        · rw [if_pos hr] at h
          exact ih (attempt + 1) ⟨false, now⟩ e h
        · rw [if_neg hr] at h
          simp at h
          exact ⟨attempt, by rw [hf, h]⟩

/-- C10: `getScores` never rejects with an error thrown by the primary
scoring provider: every provider exception is caught inside the
rate-limited operation and replaced by the local fallback estimate.  Any
error `getScores` does produce is an error of some fallback invocation; if
the provider fails but the fallback succeeds, the call succeeds with the
fallback value immediately — in particular the retryable-error
classification is never consulted for the provider's failure; and when
every fallback invocation succeeds, `getScores` cannot reject at all. -/
theorem C10_provider_errors_absorbed :
    (∀ (st : AsoState) (now : ℤ) (provider : Nat → Except JsError RawScores)
        (fallback : Nat → Except JsError Scores) (e : JsError),
        (getScores st now provider fallback).1 = .error e →
        ∃ k, fallback k = .error e) ∧
    (∀ (st : AsoState) (now : ℤ) (provider : Nat → Except JsError RawScores)
        (fallback : Nat → Except JsError Scores) (e : JsError) (v : Scores),
        (st.asoAvailable = false → ASO_RETRY_INTERVAL_MS ≤ now - st.asoFailedAt) →
        provider 0 = .error e → fallback 0 = .ok v →
        (getScores st now provider fallback).1 = .ok v) ∧
    (∀ (st : AsoState) (now : ℤ) (provider : Nat → Except JsError RawScores)
        (fallback : Nat → Except JsError Scores),
        (∀ k, ∃ v, fallback k = .ok v) →
        ∃ v, (getScores st now provider fallback).1 = .ok v) := by
  refine ⟨?_, ?_, ?_⟩
  · intro st now provider fallback e h
    by_cases hguard : st.asoAvailable = false ∧ now - st.asoFailedAt < ASO_RETRY_INTERVAL_MS
    · simp only [getScores, if_pos hguard] at h
      exact ⟨0, h⟩
    · simp only [getScores, if_neg hguard] at h
      exact retryLoopSt_error_from_fallback now provider fallback MAX_RETRIES 0 _ e h
  · intro st now provider fallback e v hcool h0 hfb
    have hguard : ¬(st.asoAvailable = false ∧ now - st.asoFailedAt < ASO_RETRY_INTERVAL_MS) := by
      rintro ⟨ha, hlt⟩
      exact absurd (hcool ha) (not_le.mpr hlt)
    have hstep : scoresAttempt now provider fallback ⟨true, st.asoFailedAt⟩ 0
        = (.ok v, ⟨false, now⟩) := by
      simp [scoresAttempt, h0, hfb]
    simp only [getScores, if_neg hguard]
    rw [retryLoopSt_ok _ _ _ _ _ _ hstep]
  · intro st now provider fallback hfb
    by_cases hguard : st.asoAvailable = false ∧ now - st.asoFailedAt < ASO_RETRY_INTERVAL_MS
    · obtain ⟨v, hv⟩ := hfb 0
      exact ⟨v, by simp only [getScores, if_pos hguard]; exact hv⟩
    · cases hp : provider 0 with
      | ok r =>
        refine ⟨⟨r.traffic.getD 0, r.difficulty.getD 0⟩, ?_⟩
        have hstep : scoresAttempt now provider fallback ⟨true, st.asoFailedAt⟩ 0
            = (.ok ⟨r.traffic.getD 0, r.difficulty.getD 0⟩, ⟨true, st.asoFailedAt⟩) := by
          simp [scoresAttempt, hp]
        simp only [getScores, if_neg hguard]
        rw [retryLoopSt_ok _ _ _ _ _ _ hstep]
      | error pe =>
        obtain ⟨v, hv⟩ := hfb 0
        refine ⟨v, ?_⟩
        have hstep : scoresAttempt now provider fallback ⟨true, st.asoFailedAt⟩ 0
            = (.ok v, ⟨false, now⟩) := by
          simp [scoresAttempt, hp, hv]
        simp only [getScores, if_neg hguard]
        rw [retryLoopSt_ok _ _ _ _ _ _ hstep]

/-- C10 witness: concrete instantiations — a fallback failure is the error
that propagates; a provider failure with a succeeding fallback yields the
fallback value; an all-ok fallback means no rejection. -/
theorem C10_provider_errors_absorbed_witness :
    (∃ k, (fun (_ : Nat) => (.error ⟨none, none, none, some "fb"⟩ : Except JsError Scores)) k
        = .error ⟨none, none, none, some "fb"⟩) ∧
    (getScores ⟨true, 0⟩ 5 (fun _ => .error ⟨some 429, none, none, none⟩)
        (fun _ => .ok ⟨2, 3⟩)).1 = .ok ⟨2, 3⟩ ∧
    (∃ v, (getScores ⟨true, 0⟩ 5 (fun _ => .ok {})
        (fun _ => (.ok ⟨1, 1⟩ : Except JsError Scores))).1 = .ok v) := by
  refine ⟨?_, ?_, ?_⟩
  · exact C10_provider_errors_absorbed.1 ⟨false, 0⟩ 5 (fun _ => .ok {})
      (fun _ => .error ⟨none, none, none, some "fb"⟩) ⟨none, none, none, some "fb"⟩
      (by simp [getScores, ASO_RETRY_INTERVAL_MS])
  · exact C10_provider_errors_absorbed.2.1 ⟨true, 0⟩ 5 _ _ _ ⟨2, 3⟩
      (by intro h; cases h) rfl rfl
  · exact C10_provider_errors_absorbed.2.2 ⟨true, 0⟩ 5 _ _ (fun k => ⟨⟨1, 1⟩, rfl⟩)

/-! ### Competitive score (src/data-sources/custom-scoring.ts) -/

/-- One entry of the `topApps` argument of `calculateCompetitiveScore`.
The JS `(a.rating || 0)` / `(a.reviews || 0)` guards only replace a falsy
value (0 or a missing field) by 0 and are the identity on the real-valued
fields modelled here. -/
structure TopApp where
  rating : ℝ
  reviews : ℝ
  free : Bool

/-- `calculateCompetitiveScore` from custom-scoring.ts lines 52–76:
average rating, average reviews and the fraction of free apps, combined as
`Math.min(10, (avgRating/5)*3 + Math.min(4, log10(max(1,avgReviews))/1.25) + freeRatio*3)`;
an empty list returns 0. -/
noncomputable def calculateCompetitiveScore (topApps : List TopApp) : ℝ :=
  if topApps.length = 0 then 0
  else
    let n : ℝ := topApps.length
    let avgRating := (topApps.map TopApp.rating).sum / n
    let avgReviews := (topApps.map TopApp.reviews).sum / n
    let fracFree := ((topApps.filter TopApp.free).length : ℝ) / n
    min 10 (avgRating / 5 * 3 + min 4 (Real.logb 10 (max 1 avgReviews) / 1.25) + fracFree * 3)

/-- The same combination as a function of the three aggregates, used to
state monotonicity in each aggregate with the other two held fixed. -/
noncomputable def competitiveScoreOf (avgRating avgReviews fracFree : ℝ) : ℝ :=
  min 10 (avgRating / 5 * 3 + min 4 (Real.logb 10 (max 1 avgReviews) / 1.25) + fracFree * 3)

/-- Modelled from the spec: `clamp(lo, hi, x)`, the two-sided clamp the
spec's formula `clamp(0,10,...)` refers to. -/
noncomputable def clampSpec (lo hi x : ℝ) : ℝ := max lo (min hi x)

/-! ### Theorems about the competitive score (claim C9) -/

/-- C9 (counterexample): the code applies only the upper cut `min 10 (...)`,
not the spec's two-sided `clamp(0,10,...)`: on the single app with rating
−5, 0 reviews, not free, the code yields −3 while the claimed clamp formula
yields 0. -/
theorem C9_counterexample :
    calculateCompetitiveScore [⟨-5, 0, false⟩] = -3 ∧
    clampSpec 0 10 (((-5 : ℝ) / 5) * 3 + min 4 (Real.logb 10 (max 1 (0 : ℝ)) / 1.25)
      + 0 * 3) = 0 ∧
    calculateCompetitiveScore [⟨-5, 0, false⟩] ≠
      clampSpec 0 10 (((-5 : ℝ) / 5) * 3 + min 4 (Real.logb 10 (max 1 (0 : ℝ)) / 1.25)
        + 0 * 3) := by
  have hmax : max (1 : ℝ) 0 = 1 := by norm_num
  have hlog : Real.logb 10 (max 1 (0 : ℝ)) = 0 := by rw [hmax, Real.logb_one]
  have h1 : calculateCompetitiveScore [⟨-5, 0, false⟩] = -3 := by
    simp only [calculateCompetitiveScore, List.length_cons, List.length_nil, List.map,
      List.filter, List.sum_cons, List.sum_nil]
    norm_num [hlog]
  have h2 : clampSpec 0 10 (((-5 : ℝ) / 5) * 3 + min 4 (Real.logb 10 (max 1 (0 : ℝ)) / 1.25)
      + 0 * 3) = 0 := by
    rw [clampSpec, hlog]
    norm_num
  exact ⟨h1, h2, by rw [h1, h2]; norm_num⟩

/-- C9 (amended): `calculateCompetitiveScore` is monotonically
non-decreasing in average rating, average review count, and free-fraction
with the other two held fixed; the empty list yields exactly 0; on
non-empty input it equals
`min(10, (avgRating/5)*3 + min(4, log10(max(1,avgReviews))/1.25) + fractionFree*3)`
— the upper cut only — which coincides with the claimed `clamp(0,10,...)`
whenever every rating is non-negative (in particular on all real App Store
data). -/
theorem C9_competitive_score :
    (∀ a a' v f : ℝ, a ≤ a' → competitiveScoreOf a v f ≤ competitiveScoreOf a' v f) ∧
    (∀ a v v' f : ℝ, v ≤ v' → competitiveScoreOf a v f ≤ competitiveScoreOf a v' f) ∧
    (∀ a v f f' : ℝ, f ≤ f' → competitiveScoreOf a v f ≤ competitiveScoreOf a v f') ∧
    calculateCompetitiveScore [] = 0 ∧
    (∀ apps : List TopApp, apps ≠ [] →
        calculateCompetitiveScore apps =
          competitiveScoreOf ((apps.map TopApp.rating).sum / apps.length)
            ((apps.map TopApp.reviews).sum / apps.length)
            ((apps.filter TopApp.free).length / apps.length)) ∧
    (∀ apps : List TopApp, apps ≠ [] → (∀ x ∈ apps, 0 ≤ x.rating) →
        calculateCompetitiveScore apps =
          clampSpec 0 10 ((apps.map TopApp.rating).sum / apps.length / 5 * 3
            + min 4 (Real.logb 10 (max 1 ((apps.map TopApp.reviews).sum / apps.length)) / 1.25)
            + ((apps.filter TopApp.free).length : ℝ) / apps.length * 3)) := by
  have hbridge : ∀ apps : List TopApp, apps ≠ [] →
      calculateCompetitiveScore apps =
        competitiveScoreOf ((apps.map TopApp.rating).sum / apps.length)
          ((apps.map TopApp.reviews).sum / apps.length)
          ((apps.filter TopApp.free).length / apps.length) := by
    intro apps hne
    have hlen : apps.length ≠ 0 := fun h => hne (List.length_eq_zero.mp h)
    simp only [calculateCompetitiveScore, competitiveScoreOf, if_neg hlen]
  refine ⟨?_, ?_, ?_, ?_, hbridge, ?_⟩
  · intro a a' v f h
    unfold competitiveScoreOf
    gcongr
  · intro a v v' f h
    unfold competitiveScoreOf
    have hlog : Real.logb 10 (max 1 v) ≤ Real.logb 10 (max 1 v') :=
      Real.logb_le_logb_of_le (by norm_num) (lt_of_lt_of_le one_pos (le_max_left 1 v))
        (max_le_max le_rfl h)
    gcongr
  · intro a v f f' h
    unfold competitiveScoreOf
    gcongr
  · simp [calculateCompetitiveScore]
  · intro apps hne hrat
    have hlen : (0 : ℝ) < apps.length := by
      have : 0 < apps.length := List.length_pos.mpr hne
      exact_mod_cast this
    have hA : (0 : ℝ) ≤ (apps.map TopApp.rating).sum / apps.length / 5 * 3 := by
      have hsum : (0 : ℝ) ≤ (apps.map TopApp.rating).sum := by
        apply List.sum_nonneg
        intro x hx
        obtain ⟨a, ha, rfl⟩ := List.mem_map.mp hx
        exact hrat a ha
      positivity
    have hB : (0 : ℝ) ≤ min 4 (Real.logb 10 (max 1 ((apps.map TopApp.reviews).sum / apps.length)) / 1.25) := by
      apply le_min (by norm_num)
      have := Real.logb_nonneg (b := 10) (by norm_num)
        (le_max_left 1 ((apps.map TopApp.reviews).sum / apps.length))
      positivity
    have hC : (0 : ℝ) ≤ ((apps.filter TopApp.free).length : ℝ) / apps.length * 3 := by
      positivity
    rw [hbridge apps hne, competitiveScoreOf, clampSpec]
    exact (max_eq_right (le_min (by norm_num) (by linarith))).symm

/-- C9 witness: the amended statement applied at concrete inputs. -/
theorem C9_competitive_score_witness :
    competitiveScoreOf 0 0 0 ≤ competitiveScoreOf 1 0 0 ∧
    competitiveScoreOf 0 0 0 ≤ competitiveScoreOf 0 1 0 ∧
    competitiveScoreOf 0 0 0 ≤ competitiveScoreOf 0 0 1 ∧
    calculateCompetitiveScore [] = 0 ∧
    calculateCompetitiveScore [⟨1, 1, true⟩] =
      competitiveScoreOf (([⟨1, 1, true⟩] : List TopApp).map TopApp.rating).sum
        ((([⟨1, 1, true⟩] : List TopApp).map TopApp.reviews).sum / 1)
        ((([⟨1, 1, true⟩] : List TopApp).filter TopApp.free).length / 1) ∧
    calculateCompetitiveScore [⟨1, 1, true⟩] =
      clampSpec 0 10 ((([⟨1, 1, true⟩] : List TopApp).map TopApp.rating).sum / 1 / 5 * 3
        + min 4 (Real.logb 10 (max 1 ((([⟨1, 1, true⟩] : List TopApp).map TopApp.reviews).sum / 1)) / 1.25)
        + ((([⟨1, 1, true⟩] : List TopApp).filter TopApp.free).length : ℝ) / 1 * 3) := by
  have hne : ([⟨1, 1, true⟩] : List TopApp) ≠ [] := by simp
  have hrat : ∀ x ∈ ([⟨1, 1, true⟩] : List TopApp), 0 ≤ x.rating := by
    intro x hx
    simp only [List.mem_singleton] at hx
    subst hx
    norm_num
  refine ⟨C9_competitive_score.1 0 1 0 0 (by norm_num),
    C9_competitive_score.2.1 0 0 1 0 (by norm_num),
    C9_competitive_score.2.2.1 0 0 0 1 (by norm_num),
    C9_competitive_score.2.2.2.1, ?_, ?_⟩
  · have h := C9_competitive_score.2.2.2.2.1 [⟨1, 1, true⟩] hne
    simpa using h
  · have h := C9_competitive_score.2.2.2.2.2 [⟨1, 1, true⟩] hne hrat
    simpa using h

/-! ### Cache store (src/cache/sqlite-cache.ts)

The SQLite table `cache (key TEXT PRIMARY KEY, value, expires_at, created_at)`
is modelled as a list of rows in rowid order; `INSERT OR REPLACE` deletes
the conflicting row and appends the new one (fresh rowid).  Times are in
seconds (`strftime('%s','now')` / `Math.floor(Date.now()/1000)`), one clock
`now` per operation. -/

/-- One row of the `cache` table. -/
structure CacheRow where
  key : String
  value : String
  expiresAt : ℤ
  createdAt : ℤ
deriving DecidableEq

/-- `const MAX_CACHE_ENTRIES = 5000`. -/
def MAX_CACHE_ENTRIES : Nat := 5000

/-- `getFromCache`: `SELECT value FROM cache WHERE key = ? AND expires_at > now`. -/
def getFromCache (db : List CacheRow) (now : ℤ) (key : String) : Option String :=
  (db.find? (fun r => r.key == key && decide (now < r.expiresAt))).map CacheRow.value

/-- `DELETE FROM cache WHERE expires_at < now` (the expired-row purge). -/
def purgeExpired (db : List CacheRow) (now : ℤ) : List CacheRow :=
  db.filter (fun r => decide (now ≤ r.expiresAt))

/-- Stable insertion into a `created_at`-sorted list (a row is placed before
any row with the same `created_at` that sorts after it came later). -/
def insertByCreated (x : CacheRow) : List CacheRow → List CacheRow
  | [] => [x]
  | y :: ys => if x.createdAt ≤ y.createdAt then x :: y :: ys else y :: insertByCreated x ys

/-- `ORDER BY created_at ASC` as a stable sort in rowid order. -/
def sortByCreated : List CacheRow → List CacheRow
  | [] => []
  | x :: xs => insertByCreated x (sortByCreated xs)

/-- `enforceSizeLimit`: purge expired rows, then delete the
`count - MAX_CACHE_ENTRIES` oldest-`created_at` rows when over capacity
(`DELETE WHERE key IN (SELECT key ... ORDER BY created_at ASC LIMIT ?)`). -/
def enforceSizeLimit (db : List CacheRow) (now : ℤ) : List CacheRow :=
  let purged := purgeExpired db now
  if MAX_CACHE_ENTRIES < purged.length then
    let toRemove := purged.length - MAX_CACHE_ENTRIES
    let victims := ((sortByCreated purged).take toRemove).map CacheRow.key
    purged.filter (fun r => !victims.contains r.key)
  else purged

/-- `setCache`: `INSERT OR REPLACE` with `expires_at = now + ttlSeconds`,
`created_at = now`, followed by the size check that calls
`enforceSizeLimit` when the row count exceeds the capacity. -/
def setCache (db : List CacheRow) (now : ℤ) (key value : String) (ttlSeconds : ℤ) :
    List CacheRow :=
  let row : CacheRow := ⟨key, value, now + ttlSeconds, now⟩
  let db1 := db.filter (fun r => !(r.key == key)) ++ [row]
  if MAX_CACHE_ENTRIES < db1.length then enforceSizeLimit db1 now else db1

/-- A sequence of `setCache` calls with one shared value and ttl: `ps` lists
the (key, time) of each insertion in order, starting from an empty table. -/
def insertSeq (v : String) (ttl : ℤ) (ps : List (String × ℤ)) : List CacheRow :=
  ps.foldl (fun db p => setCache db p.2 p.1 v ttl) []

/-! ### SQLite `LIKE` (used by `deleteCache`)

SQLite's default `LIKE` is case-insensitive for the ASCII range: `%`
matches any character sequence, `_` any single character, and any other
pattern character matches case-insensitively. -/

/-- ASCII lower-casing, the folding SQLite's default `LIKE` applies. -/
def asciiLower (c : Char) : Char :=
  if 'A' ≤ c && c ≤ 'Z' then Char.ofNat (c.toNat + 32) else c

/-- SQLite `LIKE` pattern matching over character lists. -/
def likeMatch : List Char → List Char → Bool
  | [], s => s.isEmpty
  | '%' :: ps, s => s.tails.any (fun t => likeMatch ps t)
  | '_' :: _, [] => false
  | '_' :: ps, _ :: cs => likeMatch ps cs
  | _ :: _, [] => false
  | pc :: ps, c :: cs => asciiLower pc == asciiLower c && likeMatch ps cs

/-- `deleteCache(keyPattern)`: `DELETE FROM cache WHERE key LIKE ?`. -/
def deleteCache (db : List CacheRow) (keyPattern : String) : List CacheRow :=
  db.filter (fun r => !likeMatch keyPattern.toList r.key.toList)

/-! ### Cache lemmas -/

theorem insertByCreated_perm (x : CacheRow) (l : List CacheRow) :
    List.Perm (insertByCreated x l) (x :: l) := by
  induction l with
  | nil => exact List.Perm.refl _
  | cons y ys ih =>
    by_cases h : x.createdAt ≤ y.createdAt
    · rw [insertByCreated, if_pos h]
    · rw [insertByCreated, if_neg h]
      exact (ih.cons y).trans (List.Perm.swap x y ys)

theorem sortByCreated_perm (l : List CacheRow) : List.Perm (sortByCreated l) l := by
  induction l with
  | nil => exact List.Perm.refl _
  | cons x xs ih =>
    exact (insertByCreated_perm x (sortByCreated xs)).trans (ih.cons x)

theorem sortByCreated_length (l : List CacheRow) :
    (sortByCreated l).length = l.length :=
  (sortByCreated_perm l).length_eq

theorem insertByCreated_append (x h : CacheRow) (s : List CacheRow)
    (hle : h.createdAt ≤ x.createdAt) :
    insertByCreated h (s ++ [x]) = insertByCreated h s ++ [x] := by
  induction s with
  | nil => simp [insertByCreated, hle]
  | cons a s ih =>
    by_cases hha : h.createdAt ≤ a.createdAt
    · simp [insertByCreated, hha]
    · simp [insertByCreated, hha, ih]

theorem sortByCreated_append_max (l : List CacheRow) (x : CacheRow)
    (hle : ∀ r ∈ l, r.createdAt ≤ x.createdAt) :
    sortByCreated (l ++ [x]) = sortByCreated l ++ [x] := by
  induction l with
  | nil => rfl
  | cons h t ih =>
    have hhx : h.createdAt ≤ x.createdAt := hle h (List.mem_cons_self h t)
    have ih' := ih (fun r hr => hle r (List.mem_cons_of_mem h hr))
    show insertByCreated h (sortByCreated (t ++ [x])) = insertByCreated h (sortByCreated t) ++ [x]
    rw [ih', insertByCreated_append _ _ _ hhx]

theorem sortByCreated_sorted_self (l : List CacheRow)
    (h : l.Pairwise (fun a b => a.createdAt ≤ b.createdAt)) :
    sortByCreated l = l := by
  induction l with
  | nil => rfl
  | cons x xs ih =>
    have hx : ∀ y ∈ xs, x.createdAt ≤ y.createdAt := fun y hy => List.rel_of_pairwise_cons h hy
    show insertByCreated x (sortByCreated xs) = x :: xs
    rw [ih (List.Pairwise.of_cons h)]
    cases xs with
    | nil => rfl
    | cons y ys =>
      show insertByCreated x (y :: ys) = x :: y :: ys
      rw [insertByCreated, if_pos (hx y (List.mem_cons_self y ys))]

theorem mem_enforceSizeLimit {r : CacheRow} {db : List CacheRow} {now : ℤ}
    (h : r ∈ enforceSizeLimit db now) : r ∈ db := by
  simp only [enforceSizeLimit] at h
  split at h
  · exact (List.mem_filter.mp (List.mem_filter.mp h).1).1
  · exact (List.mem_filter.mp h).1

theorem mem_setCache {r : CacheRow} {db : List CacheRow} {now : ℤ} {k v : String} {ttl : ℤ}
    (h : r ∈ setCache db now k v ttl) :
    r ∈ db.filter (fun r => !(r.key == k)) ++ [(⟨k, v, now + ttl, now⟩ : CacheRow)] := by
  simp only [setCache] at h
  split at h
  · exact mem_enforceSizeLimit h
  · exact h

theorem getFromCache_last (l : List CacheRow) (row : CacheRow) (now : ℤ) (k : String)
    (hl : ∀ r ∈ l, r.key ≠ k) (hk : row.key = k) :
    getFromCache (l ++ [row]) now k =
      if now < row.expiresAt then some row.value else none := by
  induction l with
  | nil =>
    simp only [List.nil_append, getFromCache, List.find?]
    by_cases h : now < row.expiresAt
    · simp [hk, h]
    · simp [hk, h]
  | cons r l ih =>
    have hrk : (r.key == k) = false := by
      simpa using hl r (List.mem_cons_self r l)
    have ih' := ih (fun x hx => hl x (List.mem_cons_of_mem r hx))
    simp only [getFromCache, List.cons_append, List.find?, hrk, Bool.false_and] at ih' ⊢
    exact ih'

theorem getFromCache_none_of (l : List CacheRow) (now : ℤ) (k : String)
    (h : ∀ r ∈ l, r.key = k → r.expiresAt ≤ now) :
    getFromCache l now k = none := by
  unfold getFromCache
  rw [List.find?_eq_none.mpr]
  · rfl
  · intro r hr
    by_cases hk : r.key = k
    · have := h r hr hk
      simp [hk, not_lt.mpr this]
    · simp [hk]

theorem purgeExpired_append (l₁ l₂ : List CacheRow) (now : ℤ) :
    purgeExpired (l₁ ++ l₂) now = purgeExpired l₁ now ++ purgeExpired l₂ now :=
  List.filter_append l₁ l₂

theorem mem_purgeExpired {r : CacheRow} {l : List CacheRow} {now : ℤ}
    (h : r ∈ purgeExpired l now) : r ∈ l :=
  (List.mem_filter.mp h).1

/-- The expired-purge then trim of `enforceSizeLimit` on a table whose last
row has key `k`, is unexpired and newest: the `k`-row is never the victim,
so a lookup of `k` still resolves against it. -/
theorem enforce_append_get (l : List CacheRow) (row : CacheRow) (now t : ℤ) (k : String)
    (hlk : ∀ r ∈ l, r.key ≠ k) (hk : row.key = k)
    (hcre : ∀ r ∈ l, r.createdAt ≤ now) (hrcre : row.createdAt = now)
    (hexp : now ≤ row.expiresAt) :
    getFromCache (enforceSizeLimit (l ++ [row]) now) t k
      = if t < row.expiresAt then some row.value else none := by
  have hrowkeep : purgeExpired [row] now = [row] := by
    simp [purgeExpired, hexp]
  have hpurged : purgeExpired (l ++ [row]) now = purgeExpired l now ++ [row] := by
    rw [purgeExpired_append, hrowkeep]
  set l' := purgeExpired l now with hl'
  have hl'k : ∀ r ∈ l', r.key ≠ k := fun r hr => hlk r (mem_purgeExpired hr)
  have hl'c : ∀ r ∈ l', r.createdAt ≤ row.createdAt := by
    intro r hr
    rw [hrcre]
    exact hcre r (mem_purgeExpired hr)
  unfold enforceSizeLimit
  rw [hpurged]
  by_cases hover : MAX_CACHE_ENTRIES < (l' ++ [row]).length
  · rw [if_pos hover]
    have hsorted : sortByCreated (l' ++ [row]) = sortByCreated l' ++ [row] :=
      sortByCreated_append_max l' row hl'c
    set toRemove := (l' ++ [row]).length - MAX_CACHE_ENTRIES with htr
    have htrle : toRemove ≤ (sortByCreated l').length := by
      rw [sortByCreated_length]
      have h5 : (1 : Nat) ≤ MAX_CACHE_ENTRIES := by norm_num [MAX_CACHE_ENTRIES]
      simp only [htr, List.length_append, List.length_cons, List.length_nil]
      omega
    have htake : (sortByCreated (l' ++ [row])).take toRemove
        = (sortByCreated l').take toRemove := by
      rw [hsorted, List.take_append_of_le_length htrle]
    set victims := ((sortByCreated (l' ++ [row])).take toRemove).map CacheRow.key with hv
    have hvk : ∀ key' ∈ victims, key' ≠ k := by
      intro key' hkey'
      rw [hv, htake] at hkey'
      obtain ⟨r, hr, rfl⟩ := List.mem_map.mp hkey'
      have hr1 : r ∈ sortByCreated l' := List.mem_of_mem_take hr
      have hr2 : r ∈ l' := (sortByCreated_perm l').mem_iff.mp hr1
      exact hl'k r hr2
    have hknot : k ∉ victims := fun hmem => hvk k hmem rfl
    have hrownot : row.key ∉ victims := by
      rw [hk]
      exact hknot
    have hfilter : (l' ++ [row]).filter (fun r => !victims.contains r.key)
        = l'.filter (fun r => !victims.contains r.key) ++ [row] := by
      rw [List.filter_append]
      simp [hrownot]
    rw [hfilter]
    exact getFromCache_last _ row t k
      (fun r hr => hl'k r (List.mem_filter.mp hr).1) hk
  · rw [if_neg hover]
    exact getFromCache_last l' row t k hl'k hk

/-! ### Theorems about TTL visibility (claim C3) -/

/-- C3: for every key, value and positive ttl, and any cache state whose
rows were created at or before `now`: after `set(k, v, ttl)` at `now`, a
`get(k)` at any time strictly within ttl seconds returns `v`, and a
`get(k)` at ttl seconds or more after the set returns absent. -/
theorem C3_ttl_visibility :
    ∀ (db : List CacheRow) (now t : ℤ) (k v : String) (ttl : ℤ),
      0 < ttl → (∀ r ∈ db, r.createdAt ≤ now) →
      (t < now + ttl → getFromCache (setCache db now k v ttl) t k = some v) ∧
      (now + ttl ≤ t → getFromCache (setCache db now k v ttl) t k = none) := by
  intro db now t k v ttl httl hcreated
  have hlk : ∀ r ∈ db.filter (fun r => !(r.key == k)), r.key ≠ k := by
    intro r hr
    simpa using (List.mem_filter.mp hr).2
  have hlc : ∀ r ∈ db.filter (fun r => !(r.key == k)), r.createdAt ≤ now :=
    fun r hr => hcreated r (List.mem_filter.mp hr).1
  constructor
  · intro ht
    simp only [setCache]
    by_cases hover : MAX_CACHE_ENTRIES <
        (db.filter (fun r => !(r.key == k)) ++ [(⟨k, v, now + ttl, now⟩ : CacheRow)]).length
    · rw [if_pos hover]
      rw [enforce_append_get _ _ now t k hlk rfl hlc rfl (by
        show now ≤ now + ttl
        linarith)]
      exact if_pos ht
    · rw [if_neg hover]
      rw [getFromCache_last _ _ t k hlk rfl]
      exact if_pos ht
  · intro ht
    apply getFromCache_none_of
    intro r hr hkey
    rcases List.mem_append.mp (mem_setCache hr) with h | h
    · exact absurd hkey (hlk r h)
    · have : r = ⟨k, v, now + ttl, now⟩ := by simpa using h
      rw [this]
      exact ht

/-- C3 witness: set at time 0 with ttl 60; a get at 59 sees the value, a get
at 60 does not. -/
theorem C3_ttl_visibility_witness :
    getFromCache (setCache [] 0 "k" "v" 60) 59 "k" = some "v" ∧
    getFromCache (setCache [] 0 "k" "v" 60) 60 "k" = none := by
  have h := C3_ttl_visibility [] 0 59 "k" "v" 60 (by norm_num) (by intro r hr; cases hr)
  have h' := C3_ttl_visibility [] 0 60 "k" "v" 60 (by norm_num) (by intro r hr; cases hr)
  exact ⟨h.1 (by norm_num), h'.2 (by norm_num)⟩

/-! ### Theorems about pattern deletion (claim C5) -/

theorem tails_any_isEmpty (s : List Char) : s.tails.any List.isEmpty = true := by
  induction s with
  | nil => rfl
  | cons c cs ih => simp [List.tails_cons, ih]

/-- The `LIKE` pattern `foo:%` matches exactly the keys whose ASCII
lower-casing begins with `foo:`. -/
theorem likeMatch_fooPct (s : List Char) :
    likeMatch "foo:%".toList s = ((s.map asciiLower).take 4 == "foo:".toList) := by
  have h1 : ∀ (c : Char) (cs : List Char), likeMatch ['f','o','o',':','%'] (c :: cs)
      = (('f' : Char) == asciiLower c && likeMatch ['o','o',':','%'] cs) := fun _ _ => rfl
  have h2 : ∀ (c : Char) (cs : List Char), likeMatch ['o','o',':','%'] (c :: cs)
      = (('o' : Char) == asciiLower c && likeMatch ['o',':','%'] cs) := fun _ _ => rfl
  have h3 : ∀ (c : Char) (cs : List Char), likeMatch ['o',':','%'] (c :: cs)
      = (('o' : Char) == asciiLower c && likeMatch [':','%'] cs) := fun _ _ => rfl
  have h4 : ∀ (c : Char) (cs : List Char), likeMatch [':','%'] (c :: cs)
      = ((':' : Char) == asciiLower c && likeMatch ['%'] cs) := fun _ _ => rfl
  have h5 : ∀ (cs : List Char), likeMatch ['%'] cs = cs.tails.any (fun t => likeMatch [] t) := by
    intro cs; cases cs <;> rfl
  have h6 : ∀ (t : List Char), likeMatch [] t = t.isEmpty := fun _ => rfl
  have hn2 : likeMatch ['o','o',':','%'] [] = false := rfl
  have hn3 : likeMatch ['o',':','%'] [] = false := rfl
  have hn4 : likeMatch [':','%'] [] = false := rfl
  show likeMatch ['f','o','o',':','%'] s = ((s.map asciiLower).take 4 == ['f','o','o',':'])
  match s with
  | [] => rfl
  | [a] =>
    rw [Bool.eq_iff_iff]
    simp [h1, hn2]
  | [a, b] =>
    rw [Bool.eq_iff_iff]
    simp [h1, h2, hn3]
  | [a, b, c] =>
    rw [Bool.eq_iff_iff]
    simp [h1, h2, h3, hn4]
  | a :: b :: c :: d :: rest =>
    simp only [h1, h2, h3, h4, h5, h6, List.map_cons, List.take_succ_cons, List.take_zero]
    rw [tails_any_isEmpty]
    simp [Bool.beq_comm]

/-- C5 (counterexample): SQLite's default `LIKE` is ASCII case-insensitive,
so `deleteByPattern("foo:%")` also removes the key `FOO:x`, which does not
have the prefix `foo:` — the deletion is not "all and only the `foo:`
prefixed keys". -/
theorem C5_counterexample :
    deleteCache [⟨"FOO:x", "v", 10, 0⟩] "foo:%" = [] ∧
    "FOO:x".toList.take 4 ≠ "foo:".toList := by
  constructor
  · decide
  · decide

/-- C5 (amended): `deleteByPattern("foo:%")` removes all and only the
entries whose key's ASCII lower-casing has the prefix `foo:` (SQLite `LIKE`
is ASCII case-insensitive by default); on cache states whose keys contain
no ASCII uppercase letters this is exactly the set of `foo:`-prefixed keys,
and every other entry is untouched. -/
theorem C5_delete_by_pattern :
    (∀ db : List CacheRow,
        deleteCache db "foo:%" =
          db.filter (fun r => !((r.key.toList.map asciiLower).take 4 == "foo:".toList))) ∧
    (∀ db : List CacheRow,
        (∀ r ∈ db, ∀ c ∈ r.key.toList, ¬('A' ≤ c ∧ c ≤ 'Z')) →
        deleteCache db "foo:%" =
          db.filter (fun r => !(r.key.toList.take 4 == "foo:".toList))) := by
  have hlower : ∀ (c : Char), ¬('A' ≤ c ∧ c ≤ 'Z') → asciiLower c = c := by
    intro c hc
    rw [asciiLower, if_neg]
    intro hand
    rcases Bool.and_eq_true_iff.mp hand with ⟨hA, hZ⟩
    exact hc ⟨by exact_mod_cast of_decide_eq_true hA, by exact_mod_cast of_decide_eq_true hZ⟩
  constructor
  · intro db
    unfold deleteCache
    apply List.filter_congr
    intro r _
    rw [likeMatch_fooPct]
  · intro db hdb
    unfold deleteCache
    apply List.filter_congr
    intro r hr
    rw [likeMatch_fooPct]
    have hid : ∀ (l : List Char), (∀ c ∈ l, ¬('A' ≤ c ∧ c ≤ 'Z')) → l.map asciiLower = l := by
      intro l hl
      induction l with
      | nil => rfl
      | cons c cs ih =>
        rw [List.map_cons, hlower c (hl c (List.mem_cons_self c cs)),
          ih (fun x hx => hl x (List.mem_cons_of_mem c hx))]
    rw [hid r.key.toList (hdb r hr)]

/-- C5 witness: the amended statement applied at a concrete two-entry
state. -/
theorem C5_delete_by_pattern_witness :
    deleteCache [⟨"foo:a", "v", 10, 0⟩, ⟨"bar", "w", 10, 0⟩] "foo:%" =
      ([⟨"foo:a", "v", 10, 0⟩, ⟨"bar", "w", 10, 0⟩] : List CacheRow).filter
        (fun r => !(r.key.toList.take 4 == "foo:".toList)) := by
  exact C5_delete_by_pattern.2 [⟨"foo:a", "v", 10, 0⟩, ⟨"bar", "w", 10, 0⟩] (by decide)


/-! ### Theorems about capacity eviction (claim C4) -/

/-- The row one `setCache(key, v, ttl)` call at time `p.2` with key `p.1`
writes. -/
def rowOf (v : String) (ttl : ℤ) (p : String × ℤ) : CacheRow :=
  ⟨p.1, v, p.2 + ttl, p.2⟩

/-- While the table stays at or below capacity, a sequence of distinct-key
inserts simply appends rows. -/
theorem setCache_fold_no_evict (v : String) (ttl : ℤ) :
    ∀ (ps : List (String × ℤ)) (db : List CacheRow),
      db.length + ps.length ≤ MAX_CACHE_ENTRIES →
      (∀ p ∈ ps, ∀ r ∈ db, r.key ≠ p.1) →
      (ps.map Prod.fst).Nodup →
      ps.foldl (fun d p => setCache d p.2 p.1 v ttl) db = db ++ ps.map (rowOf v ttl) := by
  intro ps
  induction ps with
  | nil => intro db _ _ _; simp
  | cons p ps ih =>
    intro db hlen hkeys hnodup
    have hfresh : ∀ r ∈ db, r.key ≠ p.1 :=
      fun r hr => hkeys p (List.mem_cons_self p ps) r hr
    have hfilter : db.filter (fun r => !(r.key == p.1)) = db :=
      List.filter_eq_self.mpr (by intro r hr; simpa using hfresh r hr)
    have hstep : setCache db p.2 p.1 v ttl = db ++ [rowOf v ttl p] := by
      simp only [setCache, hfilter]
      rw [if_neg]
      · rfl
      · simp only [List.length_append, List.length_cons, List.length_nil]
        simp only [List.length_cons] at hlen
        omega
    have hmapcons : List.map Prod.fst (p :: ps) = p.1 :: List.map Prod.fst ps := rfl
    have hnd := List.nodup_cons.mp (hmapcons ▸ hnodup)
    have hrest := ih (db ++ [rowOf v ttl p])
      (by
        simp only [List.length_append, List.length_cons, List.length_nil]
        simp only [List.length_cons] at hlen
        omega)
      (by
        intro q hq r hr
        rcases List.mem_append.mp hr with h | h
        · exact hkeys q (List.mem_cons_of_mem p hq) r h
        · have hrq : r = rowOf v ttl p := by simpa using h
          rw [hrq]
          show p.1 ≠ q.1
          intro hcontra
          apply hnd.1
          rw [hcontra]
          exact List.mem_map_of_mem Prod.fst hq)
      hnd.2
    rw [List.foldl_cons, hstep, hrest]
    simp

/-- `enforceSizeLimit` on a just-over-capacity, unexpired,
`created_at`-sorted table drops exactly the head (the oldest-inserted
row). -/
theorem enforce_full_cons (f : CacheRow) (F' : List CacheRow) (rowl : CacheRow) (now : ℤ)
    (hexp : ∀ r ∈ f :: (F' ++ [rowl]), now ≤ r.expiresAt)
    (hsorted : (f :: (F' ++ [rowl])).Pairwise (fun a b => a.createdAt ≤ b.createdAt))
    (hlen : (f :: (F' ++ [rowl])).length = MAX_CACHE_ENTRIES + 1)
    (hkeys : ∀ r ∈ F' ++ [rowl], r.key ≠ f.key) :
    enforceSizeLimit (f :: (F' ++ [rowl])) now = F' ++ [rowl] := by
  have hpurge : purgeExpired (f :: (F' ++ [rowl])) now = f :: (F' ++ [rowl]) :=
    List.filter_eq_self.mpr (by intro r hr; simpa using hexp r hr)
  simp only [enforceSizeLimit, hpurge]
  rw [if_pos (by rw [hlen]; exact Nat.lt_succ_self _)]
  have hrem : (f :: (F' ++ [rowl])).length - MAX_CACHE_ENTRIES = 1 := by
    rw [hlen]; omega
  rw [hrem, sortByCreated_sorted_self _ hsorted]
  have htake : (f :: (F' ++ [rowl])).take 1 = [f] := by simp
  rw [htake]
  simp only [List.map_cons, List.map_nil, List.filter_cons]
  have hfself : ([f.key].contains f.key) = true := by simp
  rw [hfself]
  simp only [Bool.not_true, cond_false]
  apply List.filter_eq_self.mpr
  intro r hr
  have : r.key ≠ f.key := hkeys r hr
  simp [this]

/-- `enforceSizeLimit` always leaves at most `MAX_CACHE_ENTRIES` rows. -/
theorem enforceSizeLimit_length_le (db : List CacheRow) (now : ℤ) :
    (enforceSizeLimit db now).length ≤ MAX_CACHE_ENTRIES := by
  simp only [enforceSizeLimit]
  split
  case isTrue h =>
    set purged := purgeExpired db now with hpurged
    set toRemove := purged.length - MAX_CACHE_ENTRIES with htr
    set s := sortByCreated purged with hs
    set victims := (s.take toRemove).map CacheRow.key with hv
    have hperm : List.Perm purged s := (sortByCreated_perm purged).symm
    have hflen : (purged.filter (fun r => !victims.contains r.key)).length
        = (s.filter (fun r => !victims.contains r.key)).length :=
      (hperm.filter _).length_eq
    rw [hflen]
    have hsplit : s = s.take toRemove ++ s.drop toRemove := (List.take_append_drop _ _).symm
    rw [hsplit, List.filter_append]
    have htakenil : (s.take toRemove).filter (fun r => !victims.contains r.key) = [] := by
      apply List.filter_eq_nil_iff.mpr
      intro r hr
      have : r.key ∈ victims := by
        rw [hv]
        exact List.mem_map_of_mem CacheRow.key hr
      simp [this]
    rw [htakenil, List.nil_append]
    calc ((s.drop toRemove).filter (fun r => !victims.contains r.key)).length
        ≤ (s.drop toRemove).length := List.length_filter_le _ _
      _ ≤ MAX_CACHE_ENTRIES := by
          rw [List.length_drop]
          have hslen : s.length = purged.length := sortByCreated_length purged
          omega
  case isFalse h => omega

/-- After every `setCache` the table holds at most `MAX_CACHE_ENTRIES`
rows. -/
theorem setCache_length_le (db : List CacheRow) (now : ℤ) (k v : String) (ttl : ℤ) :
    (setCache db now k v ttl).length ≤ MAX_CACHE_ENTRIES := by
  simp only [setCache]
  split
  · exact enforceSizeLimit_length_le _ _
  case isFalse h => omega

/-- C4: inserting capacity+1 distinct-key entries at strictly increasing
times, none of which expires over the run, leaves a table equal to the rows
of the last `capacity` inserts — exactly `capacity` entries, all still live
(unexpired) at every insert time of the run, with the single evicted entry
being the oldest-inserted one; and in general, after every `setCache` the
row count is at most the capacity (an over-capacity insert is immediately
trimmed back by oldest-`created_at` eviction). -/
theorem C4_capacity_eviction :
    (∀ (v : String) (ttl : ℤ) (ps : List (String × ℤ)),
        ps.length = MAX_CACHE_ENTRIES + 1 →
        (ps.map Prod.fst).Nodup →
        (ps.map Prod.snd).Pairwise (· < ·) →
        (∀ p ∈ ps, ∀ q ∈ ps, q.2 - p.2 < ttl) →
        insertSeq v ttl ps = ps.tail.map (rowOf v ttl) ∧
        (insertSeq v ttl ps).length = MAX_CACHE_ENTRIES ∧
        (∀ q ∈ ps, ∀ r ∈ insertSeq v ttl ps, q.2 < r.expiresAt)) ∧
    (∀ (db : List CacheRow) (now : ℤ) (k v : String) (ttl : ℤ),
        (setCache db now k v ttl).length ≤ MAX_CACHE_ENTRIES) := by
  constructor
  · intro v ttl ps hlen hnodup hpair hgap
    have hne : ps ≠ [] := by
      intro h
      rw [h] at hlen
      simp [MAX_CACHE_ENTRIES] at hlen
    obtain ⟨front, plast, rfl⟩ : ∃ front plast, ps = front ++ [plast] :=
      ⟨ps.dropLast, ps.getLast hne, (List.dropLast_append_getLast hne).symm⟩
    obtain ⟨f0, front', rfl⟩ : ∃ f0 front', front = f0 :: front' := by
      cases front with
      | nil =>
        exfalso
        simp only [List.nil_append, List.length_cons, List.length_nil] at hlen
        simp [MAX_CACHE_ENTRIES] at hlen
      | cons a l => exact ⟨a, l, rfl⟩
    have hflen : front'.length + 2 = MAX_CACHE_ENTRIES + 1 := by
      simp only [List.length_append, List.length_cons, List.length_nil] at hlen
      omega
    -- membership helpers
    have hmemf0 : f0 ∈ (f0 :: front') ++ [plast] := List.mem_append.mpr
      (Or.inl (List.mem_cons_self _ _))
    have hmemlast : plast ∈ (f0 :: front') ++ [plast] := List.mem_append.mpr
      (Or.inr (List.mem_cons_self _ _))
    have hmemfront' : ∀ p ∈ front', p ∈ (f0 :: front') ++ [plast] := fun p hp =>
      List.mem_append.mpr (Or.inl (List.mem_cons_of_mem f0 hp))
    have httlpos : 0 < ttl := by
      have := hgap plast hmemlast plast hmemlast
      omega
    -- key structure
    have hmapk : ((f0 :: front') ++ [plast]).map Prod.fst
        = (f0.1 :: front'.map Prod.fst) ++ [plast.1] := by simp
    rw [hmapk] at hnodup
    obtain ⟨hnd1, -, hdisj⟩ := List.nodup_append.mp hnodup
    obtain ⟨hf0notin, hfront'nodup⟩ := List.nodup_cons.mp hnd1
    -- time structure
    have hpairps : ((f0 :: front') ++ [plast]).Pairwise (fun p q => p.2 < q.2) :=
      List.pairwise_map.mp hpair
    -- the first MAX_CACHE_ENTRIES inserts append without eviction
    have hF : (f0 :: front').foldl (fun d p => setCache d p.2 p.1 v ttl) []
        = (f0 :: front').map (rowOf v ttl) := by
      have := setCache_fold_no_evict v ttl (f0 :: front') []
        (by simp only [List.length_nil, List.length_cons, Nat.zero_add]; omega)
        (by intro p _ r hr; cases hr)
        hnd1
      simpa using this
    have hfold : insertSeq v ttl ((f0 :: front') ++ [plast])
        = setCache ((f0 :: front').map (rowOf v ttl)) plast.2 plast.1 v ttl := by
      rw [insertSeq, List.foldl_append, hF]
      rfl
    -- the final insert: fresh key, over capacity
    have hfreshlast : ∀ r ∈ (f0 :: front').map (rowOf v ttl), r.key ≠ plast.1 := by
      intro r hr
      obtain ⟨p, hp, rfl⟩ := List.mem_map.mp hr
      show p.1 ≠ plast.1
      intro hcontra
      have hmem1 : p.1 ∈ f0.1 :: front'.map Prod.fst := by
        simpa using List.mem_map_of_mem Prod.fst hp
      exact hdisj hmem1 (by rw [hcontra]; exact List.mem_cons_self _ _)
    have hfilterlast : ((f0 :: front').map (rowOf v ttl)).filter
        (fun r => !(r.key == plast.1)) = (f0 :: front').map (rowOf v ttl) :=
      List.filter_eq_self.mpr (by intro r hr; simpa using hfreshlast r hr)
    have hsetlast : setCache ((f0 :: front').map (rowOf v ttl)) plast.2 plast.1 v ttl
        = enforceSizeLimit ((f0 :: front').map (rowOf v ttl) ++ [rowOf v ttl plast]) plast.2 := by
      simp only [setCache, hfilterlast]
      rw [if_pos]
      · rfl
      · simp only [List.length_append, List.length_map, List.length_cons, List.length_nil]
        omega
    -- facts feeding enforce_full_cons
    have hexpgen : ∀ p ∈ (f0 :: front') ++ [plast], plast.2 ≤ (rowOf v ttl p).expiresAt := by
      intro p hp
      have := hgap p hp plast hmemlast
      show plast.2 ≤ p.2 + ttl
      omega
    have hmapshape : ((f0 :: front') ++ [plast]).map (rowOf v ttl)
        = rowOf v ttl f0 :: (front'.map (rowOf v ttl) ++ [rowOf v ttl plast]) := by simp
    have hexp : ∀ r ∈ rowOf v ttl f0 :: (front'.map (rowOf v ttl) ++ [rowOf v ttl plast]),
        plast.2 ≤ r.expiresAt := by
      intro r hr
      rw [← hmapshape] at hr
      obtain ⟨p, hp, rfl⟩ := List.mem_map.mp hr
      exact hexpgen p hp
    have hsorted : (rowOf v ttl f0 :: (front'.map (rowOf v ttl)
        ++ [rowOf v ttl plast])).Pairwise (fun a b => a.createdAt ≤ b.createdAt) := by
      rw [← hmapshape]
      exact List.pairwise_map.mpr (hpairps.imp (fun h => le_of_lt h))
    have hlen2 : (rowOf v ttl f0 :: (front'.map (rowOf v ttl)
        ++ [rowOf v ttl plast])).length = MAX_CACHE_ENTRIES + 1 := by
      simp only [List.length_cons, List.length_append, List.length_map, List.length_nil]
      omega
    have hkeystail : ∀ r ∈ front'.map (rowOf v ttl) ++ [rowOf v ttl plast],
        r.key ≠ (rowOf v ttl f0).key := by
      intro r hr
      rcases List.mem_append.mp hr with h | h
      · obtain ⟨p, hp, rfl⟩ := List.mem_map.mp h
        show p.1 ≠ f0.1
        intro hcontra
        exact hf0notin (hcontra ▸ List.mem_map_of_mem Prod.fst hp)
      · have : r = rowOf v ttl plast := by simpa using h
        rw [this]
        show plast.1 ≠ f0.1
        intro hcontra
        exact hdisj (hcontra ▸ List.mem_cons_self f0.1 (front'.map Prod.fst))
          (List.mem_cons_self _ _)
    have henforce : enforceSizeLimit ((f0 :: front').map (rowOf v ttl)
        ++ [rowOf v ttl plast]) plast.2
        = front'.map (rowOf v ttl) ++ [rowOf v ttl plast] := by
      have hshape : (f0 :: front').map (rowOf v ttl) ++ [rowOf v ttl plast]
          = rowOf v ttl f0 :: (front'.map (rowOf v ttl) ++ [rowOf v ttl plast]) := by simp
      rw [hshape]
      exact enforce_full_cons _ _ _ _ hexp hsorted hlen2 hkeystail
    have htail : ((f0 :: front') ++ [plast]).tail = front' ++ [plast] := rfl
    have hresult : insertSeq v ttl ((f0 :: front') ++ [plast])
        = ((f0 :: front') ++ [plast]).tail.map (rowOf v ttl) := by
      rw [hfold, hsetlast, henforce, htail]
      simp
    refine ⟨hresult, ?_, ?_⟩
    · rw [hresult, htail]
      simp only [List.length_map, List.length_append, List.length_cons, List.length_nil]
      omega
    · intro q hq r hr
      rw [hresult, htail] at hr
      obtain ⟨p, hp, rfl⟩ := List.mem_map.mp hr
      have hpps : p ∈ (f0 :: front') ++ [plast] := by
        rcases List.mem_append.mp hp with h | h
        · exact hmemfront' p h
        · exact List.mem_append.mpr (Or.inr h)
      have := hgap p hpps q hq
      show q.2 < p.2 + ttl
      omega
  · intro db now k v ttl
    exact setCache_length_le db now k v ttl

/-- A concrete run of capacity+1 inserts: key `i` is the string of `i`
copies of `a`, inserted at time `i`. -/
def c4Inserts : List (String × ℤ) :=
  (List.range (MAX_CACHE_ENTRIES + 1)).map (fun i => (String.mk (List.replicate i 'a'), (i : ℤ)))

/-- C4 witness: the eviction scenario applied to the concrete insert run,
plus the capacity bound at a concrete small set. -/
theorem C4_capacity_eviction_witness :
    insertSeq "v" 10000 c4Inserts = c4Inserts.tail.map (rowOf "v" 10000) ∧
    (insertSeq "v" 10000 c4Inserts).length = MAX_CACHE_ENTRIES ∧
    (setCache [] 0 "k" "v" 60).length ≤ MAX_CACHE_ENTRIES := by
  have hM : MAX_CACHE_ENTRIES = 5000 := rfl
  have hlen : c4Inserts.length = MAX_CACHE_ENTRIES + 1 := by
    simp [c4Inserts]
  have hinj : Function.Injective (fun i : Nat => String.mk (List.replicate i 'a')) := by
    intro i j h
    have := congrArg (fun s : String => s.data.length) h
    simpa using this
  have hnodup : (c4Inserts.map Prod.fst).Nodup := by
    rw [c4Inserts, List.map_map]
    exact (List.nodup_range _).map hinj
  have hpair : (c4Inserts.map Prod.snd).Pairwise (· < ·) := by
    rw [c4Inserts, List.map_map]
    apply List.pairwise_map.mpr
    apply List.Pairwise.imp ?_ (List.sorted_lt_range _)
    intro a b hab
    show (a : ℤ) < (b : ℤ)
    exact_mod_cast hab
  have hbounds : ∀ p ∈ c4Inserts, 0 ≤ p.2 ∧ p.2 < (MAX_CACHE_ENTRIES : ℤ) + 1 := by
    intro p hp
    obtain ⟨i, hi, rfl⟩ := List.mem_map.mp hp
    have := List.mem_range.mp hi
    constructor
    · show (0 : ℤ) ≤ (i : ℤ)
      exact_mod_cast Int.ofNat_nonneg i
    · show (i : ℤ) < (MAX_CACHE_ENTRIES : ℤ) + 1
      exact_mod_cast this
  have hgap : ∀ p ∈ c4Inserts, ∀ q ∈ c4Inserts, q.2 - p.2 < 10000 := by
    intro p hp q hq
    have h1 := hbounds p hp
    have h2 := hbounds q hq
    rw [hM] at h1 h2
    omega
  have h := C4_capacity_eviction.1 "v" 10000 c4Inserts hlen hnodup hpair hgap
  exact ⟨h.1, h.2.1, C4_capacity_eviction.2 [] 0 "k" "v" 60⟩

/-! ### Metadata Client (src/data-sources/app-store-connect.ts)

`getMetadata`, `getAppInfoId` and `updateMetadata` are modelled against an
environment describing what the upstream API would answer: the app-info
containers, the pre-existing localization ids the `before` snapshot finds,
and the editable version id.  `updateMetadataRun` returns the list of API
calls issued after the `before` snapshot together with the outcome. -/

/-- One app-info container resource: id and `attributes.appStoreState`
(absent attributes give `none`). -/
structure AppInfo where
  id : String
  appStoreState : Option String
deriving DecidableEq

/-- The shared selection in `getAppInfoId` and `getMetadata`:
`appInfos.find(info => info.attributes?.appStoreState !== "READY_FOR_SALE")`. -/
def selectEditable (infos : List AppInfo) : Option AppInfo :=
  infos.find? (fun i => !(i.appStoreState == some "READY_FOR_SALE"))

/-- `getAppInfoId`: `editable?.id ?? appInfos[0]?.id ?? null`. -/
def getAppInfoId (infos : List AppInfo) : Option String :=
  match selectEditable infos with
  | some i => some i.id
  | none =>
    match infos.head? with
    | some i => some i.id
    | none => none

/-- `decodeHtmlEntities`: the seven sequential global replacements. -/
def decodeHtmlEntities (text : String) : String :=
  ((((((text.replace "&amp;" "&").replace "&lt;" "<").replace "&gt;" ">").replace
    "&quot;" "\"").replace "&#39;" "\x27").replace "&#x27;" "\x27").replace "&#x2F;" "/"

/-- `ConnectMetadataUpdate`: every field optional. -/
structure ConnectMetadataUpdate where
  name : Option String := none
  subtitle : Option String := none
  keywords : Option String := none
  description : Option String := none
  promotionalText : Option String := none
  whatsNew : Option String := none
  supportUrl : Option String := none
  marketingUrl : Option String := none
deriving DecidableEq

/-- `sanitizeUpdates`: decode HTML entities in every supplied field. -/
def sanitizeUpdates (u : ConnectMetadataUpdate) : ConnectMetadataUpdate where
  name := u.name.map decodeHtmlEntities
  subtitle := u.subtitle.map decodeHtmlEntities
  keywords := u.keywords.map decodeHtmlEntities
  description := u.description.map decodeHtmlEntities
  promotionalText := u.promotionalText.map decodeHtmlEntities
  whatsNew := u.whatsNew.map decodeHtmlEntities
  supportUrl := u.supportUrl.map decodeHtmlEntities
  marketingUrl := u.marketingUrl.map decodeHtmlEntities

/-- The API requests `updateMetadata` can issue after the `before`
snapshot. -/
inductive ApiCall
  | getAppInfos
  | patchAppInfoLoc (id : String)
  | createAppInfoLoc (appInfoId : String)
  | getEditableVersion
  | patchVersionLoc (id : String)
  | createVersionLoc (versionId : String)
deriving DecidableEq

/-- Whether a call mutates upstream state (POST/PATCH). -/
def ApiCall.isWrite : ApiCall → Bool
  | .patchAppInfoLoc _ => true
  | .createAppInfoLoc _ => true
  | .patchVersionLoc _ => true
  | .createVersionLoc _ => true
  | _ => false

/-- The errors `updateMetadata` throws itself (each stands for the
corresponding `throw new Error(...)` message in the source). -/
inductive UpdateError
  | appInfoNotFound
  | nameRequiredForNewLocalization
  | noEditableVersion
deriving DecidableEq

/-- What the upstream would answer during one `updateMetadata` call. -/
structure ConnectEnv where
  appInfoLocalizationId : Option String
  versionLocalizationId : Option String
  appInfos : List AppInfo
  editableVersionId : Option String
deriving DecidableEq

/-- `updateMetadata` after the `before` snapshot: the app-level step
(patch when an app-info localization exists; otherwise look up the app-info
container — a network call — then require a non-empty `name` before
creating), then the version-level step (patch when a version localization
exists; otherwise look up the editable version and create under it).
Returns the issued calls in order and the outcome; a thrown error aborts
the remaining steps. -/
def updateMetadataRun (env : ConnectEnv) (updates0 : ConnectMetadataUpdate) :
    List ApiCall × Except UpdateError Unit :=
  let updates := sanitizeUpdates updates0
  let hasAppAttrs := updates.name.isSome || updates.subtitle.isSome
  let appStep : List ApiCall × Except UpdateError Unit :=
    if hasAppAttrs then
      match env.appInfoLocalizationId with
      | some locId => ([.patchAppInfoLoc locId], .ok ())
      | none =>
        match getAppInfoId env.appInfos with
        | none => ([.getAppInfos], .error .appInfoNotFound)
        | some aid =>
          if (updates.name.getD "").isEmpty then
            ([.getAppInfos], .error .nameRequiredForNewLocalization)
          else ([.getAppInfos, .createAppInfoLoc aid], .ok ())
    else ([], .ok ())
  match appStep with
  | (calls, .error e) => (calls, .error e)
  | (calls, .ok ()) =>
    let hasVersionFields := updates.keywords.isSome || updates.description.isSome
      || updates.promotionalText.isSome || updates.whatsNew.isSome
      || updates.supportUrl.isSome || updates.marketingUrl.isSome
    if hasVersionFields then
      match env.versionLocalizationId with
      | some vlocId => (calls ++ [.patchVersionLoc vlocId], .ok ())
      | none =>
        match env.editableVersionId with
        | none => (calls ++ [.getEditableVersion], .error .noEditableVersion)
        | some vid => (calls ++ [.getEditableVersion, .createVersionLoc vid], .ok ())
    else (calls, .ok ())

/-! ### Theorems about the editable-owner selection (claim C8) -/

/-- C8: whenever the upstream returns at least one app-level container that
is not in the live/approved (`READY_FOR_SALE`) state — in particular when a
live one and a pending-review one coexist — the target id `getAppInfoId`
resolves (used both for writes and for creating new localizations, and
identically inside `getMetadata`) is the id of a container not in the
`READY_FOR_SALE` state. -/
theorem C8_editable_owner_selection :
    ∀ (infos : List AppInfo),
      (∃ i ∈ infos, i.appStoreState ≠ some "READY_FOR_SALE") →
      ∃ i ∈ infos, getAppInfoId infos = some i.id ∧
        i.appStoreState ≠ some "READY_FOR_SALE" ∧
        selectEditable infos = some i := by
  intro infos hex
  have hfind : (infos.find? (fun i => !(i.appStoreState == some "READY_FOR_SALE"))).isSome := by
    rw [List.find?_isSome]
    obtain ⟨i, hi, hstate⟩ := hex
    exact ⟨i, hi, by simpa using hstate⟩
  obtain ⟨i, hi⟩ := Option.isSome_iff_exists.mp hfind
  have hmem : i ∈ infos := List.mem_of_find?_eq_some hi
  have hstate : i.appStoreState ≠ some "READY_FOR_SALE" := by
    have := List.find?_some hi
    simpa using this
  refine ⟨i, hmem, ?_, hstate, hi⟩
  rw [getAppInfoId, selectEditable, hi]

/-- C8 witness: with a live container and a pending-review container, the
pending one is selected. -/
theorem C8_editable_owner_selection_witness :
    ∃ i ∈ [(⟨"AI-live", some "READY_FOR_SALE"⟩ : AppInfo),
           ⟨"AI-pending", some "PREPARE_FOR_SUBMISSION"⟩],
      getAppInfoId [(⟨"AI-live", some "READY_FOR_SALE"⟩ : AppInfo),
           ⟨"AI-pending", some "PREPARE_FOR_SUBMISSION"⟩] = some i.id ∧
      i.appStoreState ≠ some "READY_FOR_SALE" ∧
      selectEditable [(⟨"AI-live", some "READY_FOR_SALE"⟩ : AppInfo),
           ⟨"AI-pending", some "PREPARE_FOR_SUBMISSION"⟩] = some i :=
  C8_editable_owner_selection _
    ⟨⟨"AI-pending", some "PREPARE_FOR_SUBMISSION"⟩, by simp, by simp⟩

/-! ### Theorems about the metadata write validation (claim C7) -/

/-- C7 (counterexample): supplying only `subtitle` for a locale with no
existing app-level localization fails with the descriptive
name-required validation error, but the call list after the existence check
is not empty: the app-info container lookup (`GET appInfos` inside
`getAppInfoId`) is issued before the `name` check. -/
theorem C7_counterexample :
    (updateMetadataRun ⟨none, none, [⟨"AI1", some "PREPARE_FOR_SUBMISSION"⟩], none⟩
        { subtitle := some "New subtitle" }).2
      = .error .nameRequiredForNewLocalization ∧
    (updateMetadataRun ⟨none, none, [⟨"AI1", some "PREPARE_FOR_SUBMISSION"⟩], none⟩
        { subtitle := some "New subtitle" }).1
      = [ApiCall.getAppInfos] ∧
    (updateMetadataRun ⟨none, none, [⟨"AI1", some "PREPARE_FOR_SUBMISSION"⟩], none⟩
        { subtitle := some "New subtitle" }).1 ≠ [] := by
  refine ⟨rfl, rfl, ?_⟩
  rw [show (updateMetadataRun ⟨none, none, [⟨"AI1", some "PREPARE_FOR_SUBMISSION"⟩], none⟩
      { subtitle := some "New subtitle" }).1 = [ApiCall.getAppInfos] from rfl]
  exact List.cons_ne_nil _ _

/-- C7 (amended): supplying app-level fields without `name` (absent or
empty after sanitizing) for a locale with no existing app-level
localization fails with the descriptive name-required validation error and
performs no write (create/patch) call — the only network call issued after
the existence check is the read-only app-info container lookup; when an
app-level localization already exists for the locale, it is patched and
`name` is never required. -/
theorem C7_name_validation :
    (∀ (env : ConnectEnv) (u : ConnectMetadataUpdate) (aid : String),
        env.appInfoLocalizationId = none →
        u.name = none → u.subtitle.isSome = true →
        getAppInfoId env.appInfos = some aid →
        updateMetadataRun env u = ([ApiCall.getAppInfos], .error .nameRequiredForNewLocalization) ∧
        (∀ c ∈ (updateMetadataRun env u).1, c.isWrite = false)) ∧
    (∀ (env : ConnectEnv) (u : ConnectMetadataUpdate) (locId : String),
        env.appInfoLocalizationId = some locId →
        (u.name.isSome || u.subtitle.isSome) = true →
        u.keywords = none → u.description = none → u.promotionalText = none →
        u.whatsNew = none → u.supportUrl = none → u.marketingUrl = none →
        updateMetadataRun env u = ([ApiCall.patchAppInfoLoc locId], .ok ())) := by
  constructor
  · intro env u aid hloc hname hsub haid
    have hrun : updateMetadataRun env u
        = ([ApiCall.getAppInfos], .error .nameRequiredForNewLocalization) := by
      have hsname : (sanitizeUpdates u).name = none := by
        simp [sanitizeUpdates, hname]
      have hssub : (sanitizeUpdates u).subtitle.isSome = true := by
        simp [sanitizeUpdates, Option.isSome_map]
        exact hsub
      simp only [updateMetadataRun, hsname, hssub, hloc, haid]
      rfl
    exact ⟨hrun, by rw [hrun]; intro c hc; simp at hc; rw [hc]; rfl⟩
  · intro env u locId hloc happ hkw hde hpr hwn hsu hmk
    have hsapp : ((sanitizeUpdates u).name.isSome || (sanitizeUpdates u).subtitle.isSome)
        = true := by
      simpa [sanitizeUpdates, Option.isSome_map] using happ
    simp only [updateMetadataRun, hsapp, hloc]
    simp [sanitizeUpdates, hkw, hde, hpr, hwn, hsu, hmk]

/-- C7 witness: the amended statement applied at concrete environments. -/
theorem C7_name_validation_witness :
    (updateMetadataRun ⟨none, none, [⟨"AI1", some "PREPARE_FOR_SUBMISSION"⟩], none⟩
        { subtitle := some "s" }
      = ([ApiCall.getAppInfos], .error .nameRequiredForNewLocalization)) ∧
    (updateMetadataRun ⟨some "LOC1", none, [], none⟩ { subtitle := some "s" }
      = ([ApiCall.patchAppInfoLoc "LOC1"], .ok ())) := by
  constructor
  · exact (C7_name_validation.1 ⟨none, none, [⟨"AI1", some "PREPARE_FOR_SUBMISSION"⟩], none⟩
      { subtitle := some "s" } "AI1" rfl rfl rfl (by decide)).1
  · exact C7_name_validation.2 ⟨some "LOC1", none, [], none⟩ { subtitle := some "s" }
      "LOC1" rfl (by decide) rfl rfl rfl rfl rfl rfl

end AsoMcp
